import Mathlib

/-!
Shallow embedding of src/slot_machine.py.

Symbols are characters; the symbol table is an association list from
symbol to its (integer) weight, mirroring the ordered Python dict.
Fallible Python operations (list indexing, random.choice on a possibly
empty pool) are embedded as Option-returning functions; randomness is
an explicit stream of natural numbers consumed by each draw.
-/

namespace SlotMachine

abbrev Symbol := Char

abbrev SymbolTable := List (Symbol × Int)

/-- MAX_LINES from slot_machine.py. -/
def MAX_LINES : Nat := 3

/-- MAX_BET from slot_machine.py. -/
def MAX_BET : Int := 100

/-- MIN_BET from slot_machine.py. -/
def MIN_BET : Int := 1

/-- ROWS from slot_machine.py. -/
def ROWS : Nat := 3

/-- COLS from slot_machine.py. -/
def COLS : Nat := 3

/-- The symbol_count dict from slot_machine.py, as an ordered association list. -/
def symbol_count : SymbolTable := [('A', 2), ('B', 4), ('C', 6), ('D', 8)]

/-- The symbol_values dict from slot_machine.py, as a total function on the
four configured symbols (other characters never occur in the reference grid). -/
def symbol_values : Symbol → Int := fun s =>
  if s = 'A' then 5 else if s = 'B' then 4 else if s = 'C' then 3 else 2

/-- The inner loop of check_winnings: walk the columns in order, comparing
the entry at row `line` against `symbol`.  `none` models an IndexError
(a column shorter than line+1 that is actually reached); `some false`
models the break on the first mismatch; `some true` means every column
matched. -/
def scanColumns (symbol : Symbol) (line : Nat) : List (List Symbol) → Option Bool
  | [] => some true
  | c :: rest =>
    match c.get? line with
    | none => none
    | some s => if symbol = s then scanColumns symbol line rest else some false

/-- The outer loop of check_winnings, iterating over the given list of row
indices (the Python code iterates over range(lines)).  Mirrors the Python
for/else: a full match adds values[symbol] * bet to the winnings and
records the 1-based line number; `none` models an IndexError. -/
def checkLines (columns : List (List Symbol)) (bet : Int) (values : Symbol → Int) :
    List Nat → Option (Int × List Nat)
  | [] => some (0, [])
  | line :: rest =>
    ((columns.headD []).get? line).bind fun symbol =>
      (scanColumns symbol line columns).bind fun matched =>
        (checkLines columns bet values rest).map fun p =>
          if matched then (values symbol * bet + p.1, (line + 1) :: p.2)
          else p

/-- check_winnings from slot_machine.py.  Returns `none` when the Python
code would raise an IndexError (empty columns list, or an inspected row
index out of range for some reached column). -/
def check_winnings (columns : List (List Symbol)) (lines : Nat) (bet : Int)
    (values : Symbol → Int) : Option (Int × List Nat) :=
  checkLines columns bet values (List.range lines)

/-- The pool-building step at the start of get_slot_machine_spin: each
symbol is expanded into `count` copies (Python range(count) yields nothing
for a non-positive count, hence Int.toNat). -/
def buildPool (symbols : SymbolTable) : List Symbol :=
  (symbols.map (fun p => List.replicate p.2.toNat p.1)).flatten

/-- One column of get_slot_machine_spin: draw `rows` symbols without
replacement from `pool`, consuming one random number per draw
(random.choice picks index c % pool.length; list.remove erases the first
occurrence of the chosen value, i.e. List.erase).  `none` models
random.choice raising on an empty pool, or the random stream running dry
(a modelling artifact only). -/
def drawColumn : Nat → List Symbol → List Nat → Option (List Symbol × List Nat)
  | 0, _, cs => some ([], cs)
  | _ + 1, _, [] => none
  | n + 1, pool, c :: cs1 =>
    (pool.get? (c % pool.length)).bind fun v =>
      (drawColumn n (pool.erase v) cs1).map fun p => (v :: p.1, p.2)

/-- The column loop of get_slot_machine_spin: each of the `cols` columns is
drawn from its own fresh copy of the full pool. -/
def spinColumns (rows : Nat) (pool : List Symbol) :
    Nat → List Nat → Option (List (List Symbol) × List Nat)
  | 0, cs => some ([], cs)
  | k + 1, cs =>
    (drawColumn rows pool cs).bind fun p =>
      (spinColumns rows pool k p.2).map fun q => (p.1 :: q.1, q.2)

/-- get_slot_machine_spin from slot_machine.py, with the random stream
made explicit. -/
def get_slot_machine_spin (rows cols : Nat) (symbols : SymbolTable)
    (cs : List Nat) : Option (List (List Symbol) × List Nat) :=
  spinColumns rows (buildPool symbols) cols cs

/-- The bet-retry loop inside game(): keep asking for a bet (here: consume
the next candidate from the collaborator's stream) until bet * lines fits
within the balance; `none` models the stream running dry (a modelling
artifact: the real collaborator prompts forever). -/
def acceptBet (balance : Int) (lines : Nat) : List Int → Option Int
  | [] => none
  | b :: rest =>
    if b * (lines : Int) > balance then acceptBet balance lines rest
    else some b

/-- game() from slot_machine.py: accept a bet for the chosen number of
lines, spin (the resulting grid is supplied by the explicit random
stream), evaluate the winnings and return the net change
winnings - total_bet. -/
def game (balance : Int) (lines : Nat) (bets : List Int)
    (grid : List (List Symbol)) (values : Symbol → Int) : Option Int :=
  (acceptBet balance lines bets).bind fun bet =>
    (check_winnings grid lines bet values).map fun p => p.1 - bet * (lines : Int)

/-- One round's external inputs in the session loop of main(). -/
structure RoundInput where
  lines : Nat
  bets : List Int
  grid : List (List Symbol)

/-- The session loop of main(): starting from the deposited balance, play
the given sequence of rounds, applying balance += game(balance) each
iteration. -/
def session (values : Symbol → Int) (balance : Int) : List RoundInput → Option Int
  | [] => some balance
  | r :: rest =>
    (game balance r.lines r.bets r.grid values).bind fun d =>
      session values (balance + d) rest

/-- Specification-side predicate: row `line` wins iff every column holds
the identical symbol at that row (compared against the first column). -/
def rowWins (columns : List (List Symbol)) (line : Nat) : Bool :=
  columns.all fun c => c.get? line = (columns.headD []).get? line

/-- Specification-side reading of the candidate symbol of a row: the first
column's entry at that row. -/
def lineSymbol (columns : List (List Symbol)) (line : Nat) : Symbol :=
  (columns.headD []).getD line 'A'

lemma checkLines_cons (cols : List (List Symbol)) (bet : Int) (values : Symbol → Int)
    (line : Nat) (rest : List Nat) :
    checkLines cols bet values (line :: rest) =
      ((cols.headD []).get? line).bind fun symbol =>
        (scanColumns symbol line cols).bind fun matched =>
          (checkLines cols bet values rest).map fun p =>
            if matched then (values symbol * bet + p.1, (line + 1) :: p.2)
            else p := rfl

lemma drawColumn_succ (n : Nat) (pool : List Symbol) (c : Nat) (cs1 : List Nat) :
    drawColumn (n + 1) pool (c :: cs1) =
      (pool.get? (c % pool.length)).bind fun v =>
        (drawColumn n (pool.erase v) cs1).map fun p => (v :: p.1, p.2) := rfl

lemma spinColumns_succ (rows : Nat) (pool : List Symbol) (k : Nat) (cs : List Nat) :
    spinColumns rows pool (k + 1) cs =
      (drawColumn rows pool cs).bind fun p =>
        (spinColumns rows pool k p.2).map fun q => (p.1 :: q.1, q.2) := rfl

lemma session_cons (values : Symbol → Int) (balance : Int) (r : RoundInput)
    (rest : List RoundInput) :
    session values balance (r :: rest) =
      (game balance r.lines r.bets r.grid values).bind fun d =>
        session values (balance + d) rest := rfl

lemma get?_eq_some_lineSymbol (columns : List (List Symbol)) (line : Nat)
    (h : line < (columns.headD []).length) :
    (columns.headD []).get? line = some (lineSymbol columns line) := by
  unfold lineSymbol
  rw [List.getD_eq_get?]
  cases hx : (columns.headD []).get? line with
  | none =>
    rw [List.get?_eq_none] at hx
    omega
  | some x => rfl

lemma scanColumns_of_lt (s : Symbol) (line : Nat) (cols : List (List Symbol))
    (h : ∀ c ∈ cols, line < c.length) :
    scanColumns s line cols = some (cols.all fun c => c.get? line = some s) := by
  induction cols with
  | nil => rfl
  | cons c rest ih =>
    have hc : line < c.length := h c (List.mem_cons_self c rest)
    cases hx : c.get? line with
    | none =>
      rw [List.get?_eq_none] at hx
      omega
    | some x =>
      simp only [scanColumns, hx, List.all_cons]
      by_cases hsx : s = x
      · subst hsx
        rw [if_pos rfl, ih fun c hc => h c (List.mem_cons_of_mem _ hc)]
        simp
      · rw [if_neg hsx]
        simp [Ne.symm hsx]

lemma checkLines_eq (cols : List (List Symbol)) (bet : Int) (values : Symbol → Int)
    (ls : List Nat) (hne : cols ≠ [])
    (h : ∀ c ∈ cols, ∀ l ∈ ls, l < c.length) :
    checkLines cols bet values ls =
      some (((ls.filter (rowWins cols)).map fun i => values (lineSymbol cols i) * bet).sum,
        (ls.filter (rowWins cols)).map fun i => i + 1) := by
  induction ls with
  | nil => rfl
  | cons line rest ih =>
    have hhead : line < (cols.headD []).length := by
      cases cols with
      | nil => exact absurd rfl hne
      | cons c0 cs =>
        exact h c0 (List.mem_cons_self c0 cs) line (List.mem_cons_self line rest)
    have hsym := get?_eq_some_lineSymbol cols line hhead
    have hscan := scanColumns_of_lt (lineSymbol cols line) line cols
      fun c hc => h c hc line (List.mem_cons_self line rest)
    have hrest := ih fun c hc l hl => h c hc l (List.mem_cons_of_mem _ hl)
    have hall : (cols.all fun c => c.get? line = some (lineSymbol cols line)) =
        rowWins cols line := by
      unfold rowWins
      rw [hsym]
    simp only [checkLines_cons, hsym, Option.some_bind, hscan, hrest, Option.map_some', hall]
    by_cases hw : rowWins cols line = true
    · simp [List.filter_cons, hw]
    · simp [List.filter_cons, hw]

lemma get?_eq_of_take_eq {a b : List Symbol} {n l : Nat} (h : a.take n = b.take n)
    (hl : l < n) : a.get? l = b.get? l := by
  rw [← List.get?_take hl, h, List.get?_take hl]

lemma scanColumns_congr (line n : Nat) (hl : line < n)
    {cols1 cols2 : List (List Symbol)}
    (h : List.Forall₂ (fun a b => a.take n = b.take n) cols1 cols2) (s : Symbol) :
    scanColumns s line cols1 = scanColumns s line cols2 := by
  induction h with
  | nil => rfl
  | @cons a b l1 l2 hab _ ih =>
    simp only [scanColumns, get?_eq_of_take_eq hab hl]
    cases hx : b.get? line with
    | none => rfl
    | some x =>
      by_cases hsx : s = x
      · subst hsx
        simp [ih]
      · simp [hsx]

lemma checkLines_congr (bet : Int) (values : Symbol → Int) (n : Nat)
    {cols1 cols2 : List (List Symbol)}
    (h : List.Forall₂ (fun a b => a.take n = b.take n) cols1 cols2)
    (ls : List Nat) (hls : ∀ l ∈ ls, l < n) :
    checkLines cols1 bet values ls = checkLines cols2 bet values ls := by
  induction ls with
  | nil => rfl
  | cons line rest ih =>
    have hl : line < n := hls line (List.mem_cons_self line rest)
    have hhead : (cols1.headD []).get? line = (cols2.headD []).get? line := by
      cases h with
      | nil => rfl
      | cons hab _ => exact get?_eq_of_take_eq hab hl
    have ihrest := ih fun l hl' => hls l (List.mem_cons_of_mem _ hl')
    simp only [checkLines_cons, hhead, ihrest, scanColumns_congr line n hl h]

lemma acceptBet_sound (balance : Int) (lines : Nat) (bets : List Int) (bet : Int)
    (h : acceptBet balance lines bets = some bet) :
    bet * (lines : Int) ≤ balance ∧ bet ∈ bets := by
  induction bets with
  | nil => simp [acceptBet] at h
  | cons b rest ih =>
    simp only [acceptBet] at h
    split at h
    · obtain ⟨h1, h2⟩ := ih h
      exact ⟨h1, List.mem_cons_of_mem _ h2⟩
    · next hb =>
      obtain rfl : b = bet := by injection h
      exact ⟨le_of_not_lt hb, List.mem_cons_self b rest⟩

lemma checkLines_winnings_nonneg (cols : List (List Symbol)) (bet : Int)
    (values : Symbol → Int) (hbet : 0 ≤ bet) (hv : ∀ s, 0 ≤ values s)
    (ls : List Nat) (w : Int) (wl : List Nat)
    (h : checkLines cols bet values ls = some (w, wl)) : 0 ≤ w := by
  induction ls generalizing w wl with
  | nil =>
    simp only [checkLines, Option.some.injEq, Prod.mk.injEq] at h
    omega
  | cons line rest ih =>
    rw [checkLines_cons] at h
    cases hx : (cols.headD []).get? line with
    | none =>
      rw [hx] at h
      simp at h
    | some symbol =>
      rw [hx, Option.some_bind] at h
      cases hs : scanColumns symbol line cols with
      | none =>
        rw [hs] at h
        simp at h
      | some matched =>
        rw [hs, Option.some_bind] at h
        cases hr : checkLines cols bet values rest with
        | none =>
          rw [hr] at h
          simp at h
        | some r =>
          obtain ⟨w', wl'⟩ := r
          rw [hr, Option.map_some'] at h
          have hw' := ih w' wl' hr
          have hmul := mul_nonneg (hv symbol) hbet
          cases matched with
          | true =>
            simp at h
            obtain ⟨h1, h2⟩ := h
            omega
          | false =>
            simp at h
            obtain ⟨h1, h2⟩ := h
            omega

lemma game_delta_bound (balance : Int) (lines : Nat) (bets : List Int)
    (grid : List (List Symbol)) (values : Symbol → Int) (d : Int)
    (hv : ∀ s, 0 ≤ values s) (hb : ∀ b ∈ bets, MIN_BET ≤ b)
    (h : game balance lines bets grid values = some d) : -balance ≤ d := by
  unfold game at h
  rw [Option.bind_eq_some] at h
  obtain ⟨bet, ha, h⟩ := h
  rw [Option.map_eq_some'] at h
  obtain ⟨p, hw, h⟩ := h
  obtain ⟨w, wl⟩ := p
  dsimp only at h
  obtain ⟨hle, hmem⟩ := acceptBet_sound balance lines bets bet ha
  have hbet1 : MIN_BET ≤ bet := hb bet hmem
  have hbet0 : (0 : Int) ≤ bet := by
    have : (1 : Int) ≤ bet := hbet1
    linarith
  have hwn : 0 ≤ w :=
    checkLines_winnings_nonneg grid bet values hbet0 hv (List.range lines) w wl hw
  linarith [hle, hwn, h.ge, h.le]

lemma checkLines_head_inspects (cols : List (List Symbol)) (bet : Int)
    (values : Symbol → Int) (ls : List Nat) (r : Int × List Nat)
    (h : checkLines cols bet values ls = some r) :
    ∀ l ∈ ls, ((cols.headD []).get? l).isSome := by
  induction ls generalizing r with
  | nil => simp
  | cons line rest ih =>
    rw [checkLines_cons, Option.bind_eq_some] at h
    obtain ⟨symbol, hx, h⟩ := h
    rw [Option.bind_eq_some] at h
    obtain ⟨matched, hs, h⟩ := h
    rw [Option.map_eq_some'] at h
    obtain ⟨r', hr, h⟩ := h
    intro l hl
    rcases List.mem_cons.mp hl with rfl | hl'
    · rw [hx]
      rfl
    · exact ih r' hr l hl'

lemma rowWins_single (col : List Symbol) (line : Nat) : rowWins [col] line = true := by
  simp [rowWins]

lemma range_map_getD : ∀ (col : List Symbol) (n : Nat), n ≤ col.length →
    (List.range n).map (fun i => col.getD i 'A') = col.take n := by
  intro col
  induction col with
  | nil =>
    intro n hn
    obtain rfl : n = 0 := Nat.le_zero.mp hn
    rfl
  | cons c cs ih =>
    intro n hn
    cases n with
    | zero => rfl
    | succ m =>
      rw [List.range_succ_eq_map, List.map_cons, List.map_map]
      have h1 : ((fun i => (c :: cs).getD i 'A') ∘ Nat.succ) =
          fun i => cs.getD i 'A' := by
        funext i
        simp [List.getD_cons_succ]
      rw [h1, ih m (by simpa using hn)]
      simp [List.getD_cons_zero]

lemma buildPool_cons (p : Symbol × Int) (rest : SymbolTable) :
    buildPool (p :: rest) = List.replicate p.2.toNat p.1 ++ buildPool rest := by
  simp [buildPool]

lemma count_buildPool_of_not_key (s : Symbol) :
    ∀ symbols : SymbolTable, (∀ q ∈ symbols, q.1 ≠ s) →
    (buildPool symbols).count s = 0 := by
  intro symbols
  induction symbols with
  | nil => intro _; rfl
  | cons p rest ih =>
    intro h
    have hp : p.1 ≠ s := h p (List.mem_cons_self p rest)
    rw [buildPool_cons, List.count_append, List.count_replicate]
    simp [hp, ih fun q hq => h q (List.mem_cons_of_mem _ hq)]

lemma count_buildPool (s : Symbol) (w : Int) :
    ∀ symbols : SymbolTable, (symbols.Pairwise fun a b => a.1 ≠ b.1) →
    (s, w) ∈ symbols → (buildPool symbols).count s = w.toNat := by
  intro symbols
  induction symbols with
  | nil =>
    intro _ hmem
    simp at hmem
  | cons p rest ih =>
    intro hk hmem
    rw [List.pairwise_cons] at hk
    rw [buildPool_cons, List.count_append, List.count_replicate]
    rcases List.mem_cons.mp hmem with rfl | hmem'
    · rw [count_buildPool_of_not_key s rest
        fun q hq => Ne.symm (hk.1 q hq)]
      simp
    · have hp1 : p.1 ≠ s := hk.1 (s, w) hmem'
      simp [hp1, ih hk.2 hmem']

lemma buildPool_length (symbols : SymbolTable) :
    (buildPool symbols).length = (symbols.map fun p => p.2.toNat).sum := by
  rw [buildPool, List.length_flatten, List.map_map]
  simp [Function.comp_def]

lemma sum_toNat_cast : ∀ l : SymbolTable, (∀ p ∈ l, 0 ≤ p.2) →
    (((l.map fun p => p.2.toNat).sum : Nat) : Int) = (l.map fun p => p.2).sum := by
  intro l
  induction l with
  | nil => intro _; rfl
  | cons p rest ih =>
    intro h
    simp only [List.map_cons, List.sum_cons, Nat.cast_add]
    rw [Int.toNat_of_nonneg (h p (List.mem_cons_self p rest)),
      ih fun q hq => h q (List.mem_cons_of_mem _ hq)]

lemma drawColumn_spec (n : Nat) :
    ∀ (pool : List Symbol) (cs : List Nat) (col : List Symbol) (rest : List Nat),
    drawColumn n pool cs = some (col, rest) →
    col.length = n ∧ ∀ s, col.count s ≤ pool.count s := by
  induction n with
  | zero =>
    intro pool cs col rest h
    simp only [drawColumn, Option.some.injEq, Prod.mk.injEq] at h
    obtain ⟨rfl, rfl⟩ := h
    simp
  | succ m ih =>
    intro pool cs col rest h
    cases cs with
    | nil => simp [drawColumn] at h
    | cons c cs1 =>
      rw [drawColumn_succ, Option.bind_eq_some] at h
      obtain ⟨v, hg, h⟩ := h
      rw [Option.map_eq_some'] at h
      obtain ⟨p, hd, h⟩ := h
      obtain ⟨col', rest'⟩ := p
      simp only [Prod.mk.injEq] at h
      obtain ⟨rfl, rfl⟩ := h
      have hvmem : v ∈ pool := List.get?_mem hg
      obtain ⟨hlen, hcnt⟩ := ih (pool.erase v) cs1 col' rest' hd
      refine ⟨by simp [hlen], ?_⟩
      intro s
      rw [List.count_cons]
      by_cases hvs : v = s
      · subst hvs
        have hpos : 0 < pool.count v := List.count_pos_iff_mem.mpr hvmem
        have hc := hcnt v
        rw [List.count_erase_self] at hc
        simp only [beq_self_eq_true, if_true]
        omega
      · have hc := hcnt s
        rw [List.count_erase_of_ne (fun he => hvs he.symm)] at hc
        simp [hvs]
        omega

lemma spinColumns_spec (rows : Nat) (pool : List Symbol) :
    ∀ (k : Nat) (cs : List Nat) (grid : List (List Symbol)) (rest : List Nat),
    spinColumns rows pool k cs = some (grid, rest) →
    grid.length = k ∧ ∀ col ∈ grid, col.length = rows ∧
      ∀ s, col.count s ≤ pool.count s := by
  intro k
  induction k with
  | zero =>
    intro cs grid rest h
    simp only [spinColumns, Option.some.injEq, Prod.mk.injEq] at h
    obtain ⟨rfl, rfl⟩ := h
    simp
  | succ m ih =>
    intro cs grid rest h
    rw [spinColumns_succ, Option.bind_eq_some] at h
    obtain ⟨p, hd, h⟩ := h
    rw [Option.map_eq_some'] at h
    obtain ⟨q, hsp, h⟩ := h
    simp only [Prod.mk.injEq] at h
    obtain ⟨rfl, rfl⟩ := h
    obtain ⟨hl, hc⟩ := drawColumn_spec rows pool cs p.1 p.2 (by
      rw [hd])
    obtain ⟨hgl, hgc⟩ := ih p.2 q.1 q.2 (by rw [hsp])
    refine ⟨by simp [hgl], ?_⟩
    intro col hcol
    rcases List.mem_cons.mp hcol with rfl | hm
    · exact ⟨hl, hc⟩
    · exact hgc col hm

/-- C1: for a grid of at least one column, each column holding at least
`lines` symbols, and any bet and multiplier table, check_winnings returns
the sum over winning rows (rows where every column holds the identical
symbol) of multipliers[grid[0][i]] * bet, together with the 1-based
numbers of exactly those rows in ascending order. -/
theorem check_winnings_correct (columns : List (List Symbol)) (lines : Nat)
    (bet : Int) (values : Symbol → Int) (hl : 1 ≤ lines) (hne : columns ≠ [])
    (hlen : ∀ c ∈ columns, lines ≤ c.length) :
    check_winnings columns lines bet values =
      some ((((List.range lines).filter (rowWins columns)).map
          fun i => values (lineSymbol columns i) * bet).sum,
        ((List.range lines).filter (rowWins columns)).map fun i => i + 1) := by
  unfold check_winnings
  exact checkLines_eq columns bet values (List.range lines) hne
    fun c hc l hl' => lt_of_lt_of_le (List.mem_range.mp hl') (hlen c hc)

theorem check_winnings_correct_witness :
    1 ≤ 3 ∧ ([['A','B','C'],['A','D','E'],['A','F','G']] : List (List Symbol)) ≠ [] ∧
    (∀ c ∈ ([['A','B','C'],['A','D','E'],['A','F','G']] : List (List Symbol)),
      3 ≤ c.length) ∧
    check_winnings [['A','B','C'],['A','D','E'],['A','F','G']] 3 10 symbol_values =
      some (50, [1]) := by
  refine ⟨by decide, by decide, by decide, ?_⟩
  have h := check_winnings_correct [['A','B','C'],['A','D','E'],['A','F','G']] 3 10
    symbol_values (by decide) (by decide) (by decide)
  rw [h]
  decide

/-- C2: starting from a positive deposit, for any sequence of rounds whose
candidate bets respect MIN_BET, the session balance is never negative: a
round's total bet is only accepted when it does not exceed the balance and
winnings are nonnegative, so each applied net delta is at least -balance. -/
theorem session_balance_nonneg (values : Symbol → Int) (rounds : List RoundInput)
    (deposit final : Int) (hv : ∀ s, 0 ≤ values s) (hdep : 0 < deposit)
    (hb : ∀ r ∈ rounds, ∀ b ∈ r.bets, MIN_BET ≤ b)
    (hs : session values deposit rounds = some final) : 0 ≤ final := by
  have main : ∀ (rs : List RoundInput) (balance : Int), 0 ≤ balance →
      (∀ r ∈ rs, ∀ b ∈ r.bets, MIN_BET ≤ b) →
      ∀ f, session values balance rs = some f → 0 ≤ f := by
    intro rs
    induction rs with
    | nil =>
      intro balance h0 _ f h
      simp [session] at h
      omega
    | cons r rest ih =>
      intro balance h0 hb' f h
      rw [session_cons, Option.bind_eq_some] at h
      obtain ⟨d, hd, h⟩ := h
      have hdb := game_delta_bound balance r.lines r.bets r.grid values d hv
        (hb' r (List.mem_cons_self r rest)) hd
      exact ih (balance + d) (by linarith)
        (fun r' hr' => hb' r' (List.mem_cons_of_mem _ hr')) f h
  exact main rounds deposit (le_of_lt hdep) hb final hs

theorem session_balance_nonneg_witness :
    (∀ s, 0 ≤ symbol_values s) ∧ (0 : Int) < 100 ∧
    session symbol_values 100
      [⟨1, [10], [['A','B','C'],['A','D','D'],['A','C','B']]⟩] = some 140 ∧
    (0 : Int) ≤ 140 := by
  have hv : ∀ s, 0 ≤ symbol_values s := by
    intro s
    simp only [symbol_values]
    split_ifs <;> norm_num
  refine ⟨hv, by norm_num, by decide, ?_⟩
  exact session_balance_nonneg symbol_values
    [⟨1, [10], [['A','B','C'],['A','D','D'],['A','C','B']]⟩] 100 140 hv (by norm_num)
    (by decide) (by decide)

/-- C3: check_winnings never inspects row indices at or beyond `lines`: two
grids whose columns agree pairwise on their first `lines` entries give
identical results for the same lines, bet and multipliers. -/
theorem check_winnings_row_oblivious (lines : Nat) (bet : Int)
    (values : Symbol → Int) (cols1 cols2 : List (List Symbol))
    (h : List.Forall₂ (fun a b => a.take lines = b.take lines) cols1 cols2) :
    check_winnings cols1 lines bet values = check_winnings cols2 lines bet values :=
  checkLines_congr bet values lines h (List.range lines)
    fun l hl => List.mem_range.mp hl

theorem check_winnings_row_oblivious_witness :
    List.Forall₂ (fun a b => a.take 1 = b.take 1)
      [['A','B'],['A','C']] [['A','D'],['A','E']] ∧
    check_winnings [['A','B'],['A','C']] 1 10 symbol_values =
      check_winnings [['A','D'],['A','E']] 1 10 symbol_values := by
  have hF : List.Forall₂ (fun a b => a.take 1 = b.take 1)
      [['A','B'],['A','C']] [['A','D'],['A','E']] :=
    List.Forall₂.cons rfl (List.Forall₂.cons rfl List.Forall₂.nil)
  exact ⟨hF, check_winnings_row_oblivious 1 10 symbol_values _ _ hF⟩

/-- C4: in the bet-retry loop, a candidate bet whose total bet * lines
exceeds the balance is rejected and the loop re-prompts with the remaining
candidates (the balance argument unchanged, no spin reached), while an
affordable candidate is accepted as is. -/
theorem acceptBet_validation (balance : Int) (lines : Nat) (b : Int)
    (rest : List Int) :
    (b * (lines : Int) > balance →
      acceptBet balance lines (b :: rest) = acceptBet balance lines rest) ∧
    (b * (lines : Int) ≤ balance →
      acceptBet balance lines (b :: rest) = some b) := by
  constructor
  · intro h
    simp [acceptBet, h]
  · intro h
    simp [acceptBet, not_lt.mpr h]

theorem acceptBet_validation_witness :
    ((20 : Int) * ((3 : Nat) : Int) > 50 ∧
      acceptBet 50 3 [20, 10] = acceptBet 50 3 [10]) ∧
    ((10 : Int) * ((3 : Nat) : Int) ≤ 50 ∧
      acceptBet 50 3 [10] = some 10) :=
  ⟨⟨by decide, (acceptBet_validation 50 3 20 [10]).1 (by decide)⟩,
   ⟨by decide, (acceptBet_validation 50 3 10 []).2 (by decide)⟩⟩

/-- C5: every successful spin yields exactly `cols` columns of exactly
`rows` symbols each, and within any single column each symbol occurs at
most its configured weight number of times, because each column is drawn
without replacement from a fresh copy of the full pool. -/
theorem get_slot_machine_spin_spec (rows cols : Nat) (symbols : SymbolTable)
    (cs rest : List Nat) (grid : List (List Symbol))
    (hrows : rows ≤ (buildPool symbols).length)
    (hkeys : symbols.Pairwise fun a b => a.1 ≠ b.1)
    (h : get_slot_machine_spin rows cols symbols cs = some (grid, rest)) :
    grid.length = cols ∧ ∀ col ∈ grid, col.length = rows ∧
      ∀ s w, (s, w) ∈ symbols → col.count s ≤ w.toNat := by
  obtain ⟨hlen, hcols⟩ :=
    spinColumns_spec rows (buildPool symbols) cols cs grid rest h
  refine ⟨hlen, ?_⟩
  intro col hc
  obtain ⟨h1, h2⟩ := hcols col hc
  refine ⟨h1, ?_⟩
  intro s w hw
  rw [← count_buildPool s w symbols hkeys hw]
  exact h2 s

theorem get_slot_machine_spin_spec_witness :
    3 ≤ (buildPool symbol_count).length ∧
    (symbol_count.Pairwise fun a b => a.1 ≠ b.1) ∧
    get_slot_machine_spin 3 3 symbol_count [0,1,2,3,4,5,6,7,8] =
      some ([['A','B','B'],['B','B','C'],['C','C','C']], []) ∧
    (([['A','B','B'],['B','B','C'],['C','C','C']] : List (List Symbol)).length = 3 ∧
      ∀ col ∈ ([['A','B','B'],['B','B','C'],['C','C','C']] : List (List Symbol)),
        col.length = 3 ∧ ∀ s w, (s, w) ∈ symbol_count → col.count s ≤ w.toNat) := by
  refine ⟨by decide, by decide, by decide, ?_⟩
  exact get_slot_machine_spin_spec 3 3 symbol_count [0,1,2,3,4,5,6,7,8] []
    [['A','B','B'],['B','B','C'],['C','C','C']] (by decide) (by decide) (by decide)

/-- C6: for a well-formed table (distinct symbols, positive weights), the
pool contains each symbol exactly its configured weight number of times
and its total size is the sum of all weights; buildPool is a pure function
of the table. -/
theorem buildPool_spec (symbols : SymbolTable)
    (hkeys : symbols.Pairwise fun a b => a.1 ≠ b.1)
    (hpos : ∀ p ∈ symbols, 0 < p.2) :
    (∀ s w, (s, w) ∈ symbols → ((buildPool symbols).count s : Int) = w) ∧
    ((buildPool symbols).length : Int) = (symbols.map fun p => p.2).sum := by
  constructor
  · intro s w hmem
    rw [count_buildPool s w symbols hkeys hmem]
    exact Int.toNat_of_nonneg (le_of_lt (hpos (s, w) hmem))
  · rw [buildPool_length]
    exact sum_toNat_cast symbols fun p hp => le_of_lt (hpos p hp)

theorem buildPool_spec_witness :
    (symbol_count.Pairwise fun a b => a.1 ≠ b.1) ∧
    (∀ p ∈ symbol_count, 0 < p.2) ∧
    (((buildPool symbol_count).count 'A' : Int) = 2 ∧
      ((buildPool symbol_count).count 'D' : Int) = 8) ∧
    ((buildPool symbol_count).length : Int) = (symbol_count.map fun p => p.2).sum := by
  refine ⟨by decide, by decide, ⟨?_, ?_⟩, ?_⟩
  · exact (buildPool_spec symbol_count (by decide) (by decide)).1 'A' 2 (by decide)
  · exact (buildPool_spec symbol_count (by decide) (by decide)).1 'D' 8 (by decide)
  · exact (buildPool_spec symbol_count (by decide) (by decide)).2

/-- C7: an accepted round returns exactly totalWinnings - lines * betPerLine,
where totalWinnings is the evaluator's result on the spun grid; the net
delta may be negative. -/
theorem game_net_delta (balance : Int) (lines : Nat) (bets : List Int)
    (grid : List (List Symbol)) (values : Symbol → Int) (bet w : Int)
    (wl : List Nat) (ha : acceptBet balance lines bets = some bet)
    (hw : check_winnings grid lines bet values = some (w, wl)) :
    game balance lines bets grid values = some (w - bet * (lines : Int)) := by
  unfold game
  rw [ha, Option.some_bind, hw, Option.map_some']

theorem game_net_delta_witness :
    acceptBet 100 1 [10] = some 10 ∧
    check_winnings [['A','C'],['B','D']] 1 10 symbol_values = some (0, []) ∧
    game 100 1 [10] [['A','C'],['B','D']] symbol_values =
      some (0 - 10 * ((1 : Nat) : Int)) ∧
    0 - 10 * ((1 : Nat) : Int) < 0 := by
  refine ⟨by decide, by decide, ?_, by decide⟩
  exact game_net_delta 100 1 [10] [['A','C'],['B','D']] symbol_values 10 0 []
    (by decide) (by decide)

/-- C8 counterexample: on the malformed table [(A,0),(B,3)] the pool build
does not fail — the zero-weight symbol simply contributes no copies — and a
spin on that table proceeds normally, so no fatal startup error exists. -/
theorem buildPool_malformed_no_failure :
    buildPool [('A', 0), ('B', 3)] = ['B', 'B', 'B'] ∧
    (buildPool [('A', 0), ('B', 3)]).count 'A' = 0 ∧
    get_slot_machine_spin 3 1 [('A', 0), ('B', 3)] [0, 0, 0] =
      some ([['B', 'B', 'B']], []) := by
  exact ⟨by decide, by decide, by decide⟩

/-- C8 (amended): building the pool never fails; a symbol with non-positive
weight contributes zero copies to the pool (Python's range of a
non-positive count is empty), with no validation or abort at startup. -/
theorem buildPool_nonpositive_weight_empty (symbols : SymbolTable)
    (hkeys : symbols.Pairwise fun a b => a.1 ≠ b.1) (s : Symbol) (w : Int)
    (hmem : (s, w) ∈ symbols) (hw : w ≤ 0) :
    (buildPool symbols).count s = 0 := by
  rw [count_buildPool s w symbols hkeys hmem]
  omega

theorem buildPool_nonpositive_weight_empty_witness :
    (([('A', 0), ('B', 3)] : SymbolTable).Pairwise fun a b => a.1 ≠ b.1) ∧
    ('A', (0 : Int)) ∈ ([('A', 0), ('B', 3)] : SymbolTable) ∧ (0 : Int) ≤ 0 ∧
    (buildPool [('A', 0), ('B', 3)]).count 'A' = 0 := by
  refine ⟨by decide, by decide, by decide, ?_⟩
  exact buildPool_nonpositive_weight_empty [('A', 0), ('B', 3)] (by decide) 'A' 0
    (by decide) (by decide)

/-- C9: with a single column of length at least `lines`, every inspected
line wins: the winnings are bet times the sum of the multipliers of the
first `lines` symbols and the winning lines are 1..lines, with no
special-casing. -/
theorem check_winnings_single_column (col : List Symbol) (lines : Nat)
    (bet : Int) (values : Symbol → Int) (hl : 1 ≤ lines)
    (hlen : lines ≤ col.length) :
    check_winnings [col] lines bet values =
      some (((col.take lines).map values).sum * bet,
        (List.range lines).map fun i => i + 1) := by
  have hb : ∀ c ∈ [col], ∀ l ∈ List.range lines, l < c.length := by
    intro c hc l hl'
    obtain rfl : c = col := by simpa using hc
    exact lt_of_lt_of_le (List.mem_range.mp hl') hlen
  unfold check_winnings
  rw [checkLines_eq [col] bet values (List.range lines) (by simp) hb]
  have hfilter : (List.range lines).filter (rowWins [col]) = List.range lines :=
    List.filter_eq_self.mpr fun a _ => rowWins_single col a
  rw [hfilter]
  have hsum : ((List.range lines).map fun i => values (lineSymbol [col] i) * bet).sum
      = ((col.take lines).map values).sum * bet := by
    rw [← List.sum_map_mul_right, ← range_map_getD col lines hlen, List.map_map]
    rfl
  rw [hsum]

theorem check_winnings_single_column_witness :
    1 ≤ 2 ∧ 2 ≤ (['A','B','C'] : List Symbol).length ∧
    check_winnings [['A','B','C']] 2 10 symbol_values = some (90, [1, 2]) := by
  refine ⟨by decide, by decide, ?_⟩
  have h := check_winnings_single_column ['A','B','C'] 2 10 symbol_values
    (by decide) (by decide)
  rw [h]
  decide

/-- C10 counterexample: the third column has length 0 < lines = 1, yet the
call returns normally (no index error), because the scan breaks on the
second column's mismatch before ever reaching the short column. -/
theorem check_winnings_short_column_no_failure :
    (([] : List Symbol).length < 1) ∧
    check_winnings [['A'], ['B'], []] 1 10 symbol_values = some (0, []) := by
  exact ⟨by decide, by decide⟩

/-- C10 (amended): with lines >= 1, check_winnings fails on an empty columns
list and whenever the first column is shorter than `lines`; under the
precondition that columns is non-empty and every column has length at
least `lines`, no indexing can fail and the call returns normally. -/
theorem check_winnings_partiality (lines : Nat) (bet : Int)
    (values : Symbol → Int) (hl : 1 ≤ lines) (c0 : List Symbol)
    (tail : List (List Symbol)) :
    check_winnings [] lines bet values = none ∧
    (c0.length < lines → check_winnings (c0 :: tail) lines bet values = none) ∧
    ((∀ c ∈ c0 :: tail, lines ≤ c.length) →
      (check_winnings (c0 :: tail) lines bet values).isSome) := by
  obtain ⟨m, rfl⟩ : ∃ m, lines = m + 1 := ⟨lines - 1, by omega⟩
  refine ⟨?_, ?_, ?_⟩
  · unfold check_winnings
    rw [List.range_succ_eq_map, checkLines_cons]
    rfl
  · intro hshort
    cases hres : check_winnings (c0 :: tail) (m + 1) bet values with
    | none => rfl
    | some r =>
      exfalso
      have hins := checkLines_head_inspects (c0 :: tail) bet values
        (List.range (m + 1)) r hres c0.length (List.mem_range.mpr hshort)
      rw [show ((c0 :: tail).headD []) = c0 from rfl,
        List.get?_eq_none.mpr (le_refl c0.length)] at hins
      simp at hins
  · intro hlen
    unfold check_winnings
    rw [checkLines_eq (c0 :: tail) bet values (List.range (m + 1)) (by simp)
      fun c hc l hl' => lt_of_lt_of_le (List.mem_range.mp hl') (hlen c hc)]
    rfl

theorem check_winnings_partiality_witness :
    1 ≤ 1 ∧
    check_winnings [] 1 10 symbol_values = none ∧
    check_winnings [[], ['A']] 1 10 symbol_values = none ∧
    (check_winnings [['A']] 1 10 symbol_values).isSome := by
  refine ⟨by decide, ?_, ?_, ?_⟩
  · exact (check_winnings_partiality 1 10 symbol_values (by decide) ['A'] []).1
  · exact (check_winnings_partiality 1 10 symbol_values (by decide) []
      [['A']]).2.1 (by decide)
  · exact (check_winnings_partiality 1 10 symbol_values (by decide) ['A']
      []).2.2 (by decide)

end SlotMachine
